import Mathlib

/-!
Verification of the serpapi news-briefing pipeline.

Shallow embedding of the repository's own logic:

* `dedupe_rows` — the data-hygiene helper of
  `data_retrieval_storage_news_engine.py` (key-based deduplication with a
  hard cap checked after each append);
* `fetch_google_trends` — the five-attempt exponential-backoff retry loop
  around the Google Trends fetch;
* `enrich_row` — the per-row snippet-fallback step of the storage
  orchestrator `store_data_in_google_sheets`;
* `trend_rows` — the trends section of the storage orchestrator
  (map to `(query, value)` pairs, truncate, no placeholder coercion);
* `run_all_cooldown` / `set_last_run_info` — the cooldown gate and the
  metadata writes of `streamlit_app.py`;
* a small-step model of the semaphore-bounded enrichment fan-out
  `fetch_meta_descriptions`.

Python dictionaries/sets are modelled by association functions/lists used
only through membership, fallible indexing (`row[i]`, which may raise
`IndexError`) by `Option`, Python exceptions by `Except`, and timestamps
by rational numbers of seconds.
-/

namespace NewsEngine

/-- Loop body of `dedupe_rows` (data_retrieval_storage_news_engine.py).

```
seen, out = set(), []
for row in rows:
    key = row[key_index]
    if key not in seen:
        seen.add(key)
        out.append(row)
    if len(out) >= keep_n:
        break
return out
```

`row[key_index]` may raise `IndexError`, modelled by `none`.  `seen` is the
Python set (used only through membership), `out` the output accumulator.
The cap test runs after every iteration, appended or not. -/
def dedupeGo {α : Type} [DecidableEq α] (key_index : ℕ) (keep_n : ℤ) :
    List (List α) → List α → List (List α) → Option (List (List α))
  | [], _, out => some out
  | row :: rest, seen, out =>
    match row[key_index]? with
    | none => none
    | some key =>
      let seen' := if key ∈ seen then seen else key :: seen
      let out' := if key ∈ seen then out else out ++ [row]
      if keep_n ≤ (out'.length : ℤ) then some out'
      else dedupeGo key_index keep_n rest seen' out'

/-- `dedupe_rows(rows, key_index, keep_n)` from
`data_retrieval_storage_news_engine.py`: start the loop with empty `seen`
set and empty output. -/
def dedupe_rows {α : Type} [DecidableEq α] (rows : List (List α))
    (key_index : ℕ) (keep_n : ℤ) : Option (List (List α)) :=
  dedupeGo key_index keep_n rows [] []

/-- Reference definition for stating C1's ordering property: the
first-occurrence deduplication of `rows` by the key at `key_index` keeps a
row exactly when no earlier row carries the same key, in input order. -/
def firstOccur {α : Type} [DecidableEq α] (key_index : ℕ) :
    List (List α) → List (List α)
  | [] => []
  | row :: rest =>
      row :: firstOccur key_index
        (rest.filter fun r => decide (r[key_index]? ≠ row[key_index]?))
termination_by l => l.length
decreasing_by
  simp only [List.length_cons]
  exact Nat.lt_succ_of_le (List.length_filter_le _ _)

/-- Outcome of one `GoogleSearch(params).get_dict()` call inside
`fetch_google_trends`: either the `TooManyRequestsError` exception, or a
result dict reduced to its `related_queries.rising` / `related_queries.top`
lists (absent keys already defaulted to `[]` by the `.get` chain). -/
inductive TrendsOutcome (α : Type) : Type
  | rateLimited : TrendsOutcome α
  | ok (rising top : List α) : TrendsOutcome α
deriving DecidableEq

/-- Observable behaviour of one run of `fetch_google_trends`: the returned
`(rising, top)` pair or the terminal `RuntimeError`, the sleeps performed
(seconds, in order), and how many fetch calls were made. -/
structure TrendsRun (α : Type) : Type where
  result : Except String (List α × List α)
  sleeps : List ℕ
  calls : ℕ

/-- Embedding of the `while attempts < 5` loop of `fetch_google_trends`
(data_retrieval_storage_news_engine.py).  `oracle n` is the outcome of the
fetch call made when `attempts = n`.  On success the pair is returned at
once; on `rateLimited` the loop sleeps `(2 ** attempts) * 10` seconds and
retries; after the loop a `RuntimeError` is raised. -/
def trendsLoop {α : Type} (oracle : ℕ → TrendsOutcome α) (attempts : ℕ)
    (sleeps : List ℕ) (calls : ℕ) : TrendsRun α :=
  if attempts < 5 then
    match oracle attempts with
    | .ok rising top => ⟨.ok (rising, top), sleeps, calls + 1⟩
    | .rateLimited =>
        trendsLoop oracle (attempts + 1) (sleeps ++ [2 ^ attempts * 10])
          (calls + 1)
  else ⟨.error "Google Trends fetch failed after multiple attempts.", sleeps,
    calls⟩
termination_by 5 - attempts
decreasing_by omega

/-- Embedding of `fetch_google_trends`: run the retry loop from
`attempts = 0` with no sleeps and no calls performed yet. -/
def fetch_google_trends {α : Type} (oracle : ℕ → TrendsOutcome α) :
    TrendsRun α :=
  trendsLoop oracle 0 [] 0

/-- Python's `str.startswith`, evaluated on the underlying character
data. -/
def startswith (s pre : String) : Bool :=
  pre.data.isPrefixOf s.data

/-- One iteration of the enrichment-fallback loop of
`store_data_in_google_sheets` (applied to both news rows and top-stories
rows):

```
row.append(meta if meta else "No Meta Description")
if meta.startswith("HTTP") or meta.startswith("Error"):
    row[-1] = snippet_lookup.get(row[1], "No Meta Description")
```

`lookup` is `snippet_lookup` (a dict, its `.get` modelled by an
`Option`-valued function); `row[1]` may raise `IndexError`, modelled by
`none`; `row[-1] = x` replaces the last element. -/
def enrich_row (lookup : String → Option String) (row : List String)
    (meta : String) : Option (List String) :=
  let row1 := row ++ [if meta = "" then "No Meta Description" else meta]
  if startswith meta "HTTP" || startswith meta "Error" then
    match row1[1]? with
    | none => none
    | some link =>
        some (row1.dropLast ++ [(lookup link).getD "No Meta Description"])
  else some row1

/-- A raw trends record: a dict with optional `query` / `value` fields,
read by `q.get("query")` and `q.get("value")`. -/
structure TrendRecord : Type where
  query : Option String
  value : Option String
deriving DecidableEq

/-- CAP_TRENDS configuration constant (max rows in each Trends sheet). -/
def CAP_TRENDS : ℕ := 20

/-- Trends section of `store_data_in_google_sheets`:
`[[q.get("query"), q.get("value")] for q in data][:CAP_TRENDS]` — the rows
written to the "Google Trends Rising" / "Google Trends Top" sheets. -/
def trend_rows (data : List TrendRecord) : List (List (Option String)) :=
  (data.map fun q => [q.query, q.value]).take CAP_TRENDS

/-- Content of the `Metadata` worksheet as read by `get_last_run_info`
(streamlit_app.py): the parsed last-run UTC timestamp — in seconds, `none`
when cell A2 is empty — and the cached summary text of cell B2. -/
structure GateState : Type where
  lastRun : Option ℚ
  lastSummary : String
deriving DecidableEq

/-- Observable behaviour of one `run_all_cooldown` invocation: the value
returned or the exception propagated, whether `retrieve_and_store_data` and
`generate_summary` were invoked, the metadata state after the call, and the
remaining-cooldown value displayed when cooling. -/
structure GateRun : Type where
  outcome : Except String String
  calledRetrieve : Bool
  calledSummarize : Bool
  finalState : GateState
  remain : Option ℚ

/-- A Python `datetime` as handled by the gate: its timestamp in seconds
together with its timezone-awareness flag.  `get_last_run_info` returns
`pytz.utc.localize(naive_dt)`, an aware datetime; `run_all_cooldown`
computes `dt.datetime.utcnow()`, a naive one. -/
structure PyDatetime : Type where
  aware : Bool
  seconds : ℚ
deriving DecidableEq

/-- Python datetime subtraction: operands of mixed awareness cannot be
subtracted — Python raises a `TypeError`, modelled by the error value
below; same-awareness operands subtract exactly. -/
def pySubSeconds (a b : PyDatetime) : Except String ℚ :=
  if a.aware = b.aware then .ok (a.seconds - b.seconds)
  else .error
    "TypeError: cannot subtract offset-naive and offset-aware datetimes"

/-- Elapsed-hours computation of `run_all_cooldown`
(streamlit_app.py, lines 165-174): `now_utc = dt.datetime.utcnow()` is
naive, the stored timestamp read by `get_last_run_info` is pytz-aware, and
`elapsed_hours = (now_utc - last_run_utc).total_seconds() / 3600.0` — a
subtraction that raises `TypeError` whenever a stored timestamp exists.
With no stored timestamp the value is forced to `9999`. -/
def elapsedHours (now : ℚ) (lastRun : Option ℚ) : Except String ℚ :=
  match lastRun with
  | some t =>
      match pySubSeconds ⟨false, now⟩ ⟨true, t⟩ with
      | .error e => .error e
      | .ok diff => .ok (diff / 3600)
  | none => .ok 9999

/-- Embedding of `run_all_cooldown(sheet_obj, cooldown_hours)` of
`streamlit_app.py`.  The elapsed-time computation may itself raise (the
naive/aware `TypeError` of `elapsedHours`); that exception propagates at
once with nothing invoked and nothing written.  Otherwise, on the cooling
path the cached summary and the remaining time are returned and nothing is
invoked; on the ready path `retrieve` (`retrieve_and_store_data()`) and
`summarize` (`generate_summary()`) run — each may raise and propagate —
and only after both succeed does `set_last_run_info` overwrite the
metadata with the current UTC time and the new summary. -/
def run_all_cooldown (now : ℚ) (st : GateState) (retrieve : Except String Unit)
    (summarize : Except String String) (cooldown_hours : ℚ) : GateRun :=
  match elapsedHours now st.lastRun with
  | .error e => ⟨.error e, false, false, st, none⟩
  | .ok elapsed_hours =>
    if elapsed_hours < cooldown_hours then
      ⟨.ok st.lastSummary, false, false, st,
        some (cooldown_hours - elapsed_hours)⟩
    else
      match retrieve with
      | .error e => ⟨.error e, true, false, st, none⟩
      | .ok _ =>
        match summarize with
        | .error e => ⟨.error e, true, true, st, none⟩
        | .ok summary_text =>
            ⟨.ok summary_text, true, true, ⟨some now, summary_text⟩, none⟩

/-- Row 2 of the `Metadata` worksheet: cell A2 (run-time string) and cell
B2 (summary text). -/
structure MetadataRow : Type where
  runTime : String
  summary : String
deriving DecidableEq

/-- One remote `update_cell` call on the `Metadata` worksheet. -/
inductive CellWrite : Type
  | runTimeCell (v : String)
  | summaryCell (v : String)
deriving DecidableEq

/-- Embedding of `set_last_run_info` (streamlit_app.py) as the sequence of
remote writes it issues: `update_cell(2, 1, run_time_str)` followed by
`update_cell(2, 2, summary_text)` — two separate remote calls. -/
def set_last_run_info (run_time_str summary_text : String) : List CellWrite :=
  [.runTimeCell run_time_str, .summaryCell summary_text]

/-- Effect of one remote cell write on the metadata row. -/
def applyWrite (m : MetadataRow) : CellWrite → MetadataRow
  | .runTimeCell v => ⟨v, m.summary⟩
  | .summaryCell v => ⟨m.runTime, v⟩

/-- Sheet states observable after each successive remote write of a write
sequence, starting from row state `m`. -/
def statesDuring (m : MetadataRow) : List CellWrite → List MetadataRow
  | [] => []
  | w :: ws => applyWrite m w :: statesDuring (applyWrite m w) ws

/-- Phase of one `bound(u)` task spawned by `fetch_meta_descriptions`. -/
inductive TaskPhase : Type
  | pending
  | running
  | done
deriving DecidableEq

/-- Number of fetches currently in flight (tasks inside their
`async with sem` block). -/
def countRunning : List TaskPhase → ℕ
  | [] => 0
  | p :: ps => (if p = .running then 1 else 0) + countRunning ps

/-- Global state of the `fetch_meta_descriptions` fan-out: the semaphore's
free-permit count, each task's phase (task `i` fetches url `i`), and the
`asyncio.gather` result slots (slot `i` belongs to url `i`). -/
structure FanoutState : Type where
  permits : ℕ
  phases : List TaskPhase
  results : List (Option String)
deriving DecidableEq

/-- Initial state of `fetch_meta_descriptions urls limit` with
`k = urls.length`: `asyncio.Semaphore(limit)` has all permits free, every
task is pending, no result slot is filled. -/
def fanoutInit (k limit : ℕ) : FanoutState :=
  ⟨limit, List.replicate k .pending, List.replicate k none⟩

/-- Small-step semantics of the semaphore-bounded fan-out of
`fetch_meta_descriptions` (data_retrieval_storage_news_engine.py).  The
event loop may, in any order,
* let a pending task `i` enter `async with sem` when a permit is free, or
* complete a running task `i`, releasing its permit and storing its
  description into result slot `i` (`asyncio.gather` keeps results indexed
  by task, not by completion order).
`desc i` abstracts the string `_grab_desc` produces for url `i`. -/
inductive FanoutStep (desc : ℕ → String) : FanoutState → FanoutState → Prop
  | acquire (s : FanoutState) (i : ℕ) (hp : s.phases[i]? = some .pending)
      (hfree : 0 < s.permits) :
      FanoutStep desc s ⟨s.permits - 1, s.phases.set i .running, s.results⟩
  | finish (s : FanoutState) (i : ℕ) (hp : s.phases[i]? = some .running) :
      FanoutStep desc s
        ⟨s.permits + 1, s.phases.set i .done,
          s.results.set i (some (desc i))⟩

/-- States the event loop can reach from the start of
`fetch_meta_descriptions` on `k` urls with concurrency limit `limit`. -/
def FanoutReachable (desc : ℕ → String) (k limit : ℕ)
    (s : FanoutState) : Prop :=
  Relation.ReflTransGen (FanoutStep desc) (fanoutInit k limit) s

/-- Inductive invariant of the fan-out: list lengths are fixed, permits and
in-flight fetches always account for the whole semaphore, and a result slot
is filled exactly when its task is done — with the description of its own
url. -/
def FanoutInv (desc : ℕ → String) (k limit : ℕ) (s : FanoutState) : Prop :=
  s.phases.length = k ∧ s.results.length = k ∧
  s.permits + countRunning s.phases = limit ∧
  ∀ i, i < k →
    (s.phases[i]? = some .done → s.results[i]? = some (some (desc i))) ∧
    (s.phases[i]? ≠ some .done → s.results[i]? = some none)

theorem firstOccur_cons {α : Type} [DecidableEq α] (key_index : ℕ)
    (row : List α) (rest : List (List α)) :
    firstOccur key_index (row :: rest) =
      row :: firstOccur key_index
        (rest.filter fun r => decide (r[key_index]? ≠ row[key_index]?)) := by
  rw [firstOccur]

/-- Main structural lemma for C1: while the cap is not yet reached, the
dedupe loop computes the first-occurrence deduplication of the remaining
rows (restricted to keys not yet seen), truncated at the cap. -/
theorem dedupeGo_eq_take {α : Type} [DecidableEq α] (key_index : ℕ) (keep_n : ℤ)
    (rows : List (List α)) :
    ∀ (seen : List α) (out : List (List α)),
      (∀ r ∈ rows, key_index < r.length) →
      (out.length : ℤ) < keep_n →
      dedupeGo key_index keep_n rows seen out =
        some (out ++ (firstOccur key_index
            (rows.filter fun r => decide (r[key_index]? ∉ seen.map some))).take
          (keep_n - out.length).toNat) := by
  induction rows with
  | nil =>
    intro seen out hwf hlt
    simp [dedupeGo, firstOccur]
  | cons row rest ih =>
    intro seen out hwf hlt
    have hk : key_index < row.length := hwf row (List.mem_cons_self _ _)
    have hkey : row[key_index]? = some row[key_index] := List.getElem?_eq_getElem hk
    by_cases hmem : row[key_index] ∈ seen
    · have hneg : ¬ ((fun r =>
          decide (r[key_index]? ∉ List.map some seen)) row = true) := by
        simp only [hkey, decide_eq_true_eq, not_not]
        exact List.mem_map_of_mem _ hmem
      rw [List.filter_cons, if_neg hneg]
      have hstep : dedupeGo key_index keep_n (row :: rest) seen out =
          dedupeGo key_index keep_n rest seen out := by
        simp only [dedupeGo, hkey, if_pos hmem]
        rw [if_neg (by omega)]
      rw [hstep]
      exact ih seen out (fun r hr => hwf r (List.mem_cons_of_mem _ hr)) hlt
    · have hpos : ((fun r =>
          decide (r[key_index]? ∉ List.map some seen)) row = true) := by
        simp only [hkey, decide_eq_true_eq, List.mem_map, not_exists, not_and]
        intro a ha hcontra
        exact hmem (by rwa [Option.some_inj.mp hcontra] at ha)
      rw [List.filter_cons, if_pos hpos]
      rw [firstOccur_cons]
      have hfilter : ((rest.filter fun r =>
            decide (r[key_index]? ∉ List.map some seen)).filter
              fun r => decide (r[key_index]? ≠ row[key_index]?)) =
          rest.filter fun r =>
            decide (r[key_index]? ∉ List.map some (row[key_index] :: seen)) := by
        rw [List.filter_filter]
        apply List.filter_congr
        intro r _
        rw [Bool.eq_iff_iff]
        simp only [Bool.and_eq_true, decide_eq_true_eq, hkey,
          List.map_cons, List.mem_cons, not_or]
      rw [hfilter]
      by_cases hstop : keep_n ≤ ((out.length : ℤ) + 1)
      · have hstep : dedupeGo key_index keep_n (row :: rest) seen out =
            some (out ++ [row]) := by
          simp only [dedupeGo, hkey, if_neg hmem]
          rw [if_pos (by simp; omega)]
        rw [hstep]
        have h1 : (keep_n - (out.length : ℤ)).toNat = 1 := by omega
        rw [h1]
        simp
      · have hstep : dedupeGo key_index keep_n (row :: rest) seen out =
            dedupeGo key_index keep_n rest (row[key_index] :: seen)
              (out ++ [row]) := by
          simp only [dedupeGo, hkey, if_neg hmem]
          rw [if_neg (by simp; omega)]
        rw [hstep]
        rw [ih (row[key_index] :: seen) (out ++ [row])
          (fun r hr => hwf r (List.mem_cons_of_mem _ hr)) (by simp; omega)]
        have h2 : (keep_n - (out.length : ℤ)).toNat =
            (keep_n - ((out ++ [row]).length : ℤ)).toNat + 1 := by
          simp only [List.length_append, List.length_cons, List.length_nil]
          omega
        rw [h2, List.take_succ_cons]
        simp

/-- Fuelled helper: the first-occurrence deduplication is a sublist of its
input. -/
theorem firstOccur_sublist_fuel {α : Type} [DecidableEq α] (key_index : ℕ) :
    ∀ (n : ℕ) (l : List (List α)), l.length ≤ n →
      (firstOccur key_index l).Sublist l := by
  intro n
  induction n with
  | zero =>
    intro l hl
    have : l = [] := List.length_eq_zero.mp (Nat.le_zero.mp hl)
    subst this
    simp [firstOccur]
  | succ n ih =>
    intro l hl
    match l with
    | [] => simp [firstOccur]
    | row :: rest =>
      rw [firstOccur_cons]
      refine List.Sublist.cons₂ _ ?_
      have h1 : (rest.filter fun r =>
          decide (r[key_index]? ≠ row[key_index]?)).length ≤ n :=
        le_trans (List.length_filter_le _ _) (Nat.succ_le_succ_iff.mp hl)
      exact (ih _ h1).trans (List.filter_sublist _)

/-- The first-occurrence deduplication is a sublist of its input: every
kept row appears verbatim, in input order. -/
theorem firstOccur_sublist {α : Type} [DecidableEq α] (key_index : ℕ)
    (l : List (List α)) : (firstOccur key_index l).Sublist l :=
  firstOccur_sublist_fuel key_index l.length l le_rfl

/-- Fuelled helper: the keys of the first-occurrence deduplication are
pairwise distinct. -/
theorem firstOccur_keys_nodup_fuel {α : Type} [DecidableEq α] (key_index : ℕ) :
    ∀ (n : ℕ) (l : List (List α)), l.length ≤ n →
      ((firstOccur key_index l).filterMap fun r => r[key_index]?).Nodup := by
  intro n
  induction n with
  | zero =>
    intro l hl
    have : l = [] := List.length_eq_zero.mp (Nat.le_zero.mp hl)
    subst this
    simp [firstOccur]
  | succ n ih =>
    intro l hl
    match l with
    | [] => simp [firstOccur]
    | row :: rest =>
      rw [firstOccur_cons]
      set rest' := rest.filter fun r =>
        decide (r[key_index]? ≠ row[key_index]?) with hrest
      rw [List.filterMap_cons]
      have h1 : rest'.length ≤ n := by
        rw [hrest]
        exact le_trans (List.length_filter_le _ _)
          (Nat.succ_le_succ_iff.mp hl)
      have hF := ih _ h1
      cases hcase : row[key_index]? with
      | none => exact hF
      | some key =>
        rw [List.nodup_cons]
        refine ⟨?_, hF⟩
        intro hmemk
        obtain ⟨r, hrF, hrk⟩ := List.mem_filterMap.mp hmemk
        have hrmem : r ∈ rest' := (firstOccur_sublist key_index _).subset hrF
        rw [hrest] at hrmem
        have hne := (List.mem_filter.mp hrmem).2
        rw [decide_eq_true_eq] at hne
        exact hne (by rw [hrk, hcase])

/-- The keys of the first-occurrence deduplication are pairwise
distinct. -/
theorem firstOccur_keys_nodup {α : Type} [DecidableEq α] (key_index : ℕ)
    (l : List (List α)) :
    ((firstOccur key_index l).filterMap fun r => r[key_index]?).Nodup :=
  firstOccur_keys_nodup_fuel key_index l.length l le_rfl

/-- C1 (corrected: the cap bound additionally needs a positive cap, see the
counterexample `dedupe_rows_cap_zero_violates_cap`; a cap `keep_n ≤ 0`
still returns one row on non-empty input).  For every input row list whose
rows all carry the key field and every cap `keep_n ≥ 1`, `dedupe_rows`
succeeds and its output is exactly the first-occurrence deduplication of
the input truncated at the cap: no two output rows share a key, the output
length is at most `keep_n`, the output order is a prefix of the
first-occurrence order of unique keys, and on duplicate keys the
earliest-occurring record is kept (later duplicates discarded regardless of
content). -/
theorem dedupe_rows_unique_capped_first_occurrence {α : Type} [DecidableEq α]
    (rows : List (List α)) (key_index : ℕ) (keep_n : ℤ)
    (hwf : ∀ r ∈ rows, key_index < r.length) (hn : 1 ≤ keep_n) :
    ∃ out, dedupe_rows rows key_index keep_n = some out ∧
      out = (firstOccur key_index rows).take keep_n.toNat ∧
      (out.length : ℤ) ≤ keep_n ∧
      (out.filterMap fun r => r[key_index]?).Nodup ∧
      out <+: firstOccur key_index rows := by
  have hmain := dedupeGo_eq_take key_index keep_n rows [] []
    hwf (by simp; omega)
  have hfid : (rows.filter fun r =>
      decide (r[key_index]? ∉ List.map some ([] : List α))) = rows := by
    apply List.filter_eq_self.mpr
    intro a _
    simp
  rw [hfid] at hmain
  simp only [List.nil_append, List.length_nil, Nat.cast_zero, sub_zero]
    at hmain
  refine ⟨(firstOccur key_index rows).take keep_n.toNat, hmain, rfl, ?_, ?_,
    List.take_prefix _ _⟩
  · have h1 := List.length_take_le keep_n.toNat
      (firstOccur key_index rows)
    omega
  · have hnd := firstOccur_keys_nodup key_index rows
    exact hnd.sublist (List.Sublist.filterMap _
      (List.take_sublist _ _))

/-- C1 counterexample: with configured cap `0` and the one-row input
`[[0]]`, `dedupe_rows` still returns that row, so the output length
(`1`) exceeds the configured cap (`0`) — the claim's cap bound fails for a
non-positive cap. -/
theorem dedupe_rows_cap_zero_violates_cap :
    dedupe_rows [[(0 : ℕ)]] 0 0 = some [[0]] ∧
      ¬ ((([[(0 : ℕ)]] : List (List ℕ)).length : ℤ) ≤ 0) := by
  constructor
  · rfl
  · decide

/-- Witness for C1's theorem at a concrete input: four rows keyed by their
first field, with a duplicate key `1` carrying different content, cap 2. -/
theorem dedupe_rows_unique_capped_first_occurrence_witness :
    ∃ out,
      dedupe_rows [[1, 10], [2, 20], [1, 30], [3, 40]] 0 2 = some out ∧
      out = (firstOccur 0 [[1, 10], [2, 20], [1, 30], [3, 40]]).take
        (2 : ℤ).toNat ∧
      (out.length : ℤ) ≤ 2 ∧
      (out.filterMap fun r => r[0]?).Nodup ∧
      out <+: firstOccur 0 [[(1 : ℕ), 10], [2, 20], [1, 30], [3, 40]] :=
  dedupe_rows_unique_capped_first_occurrence
    [[(1 : ℕ), 10], [2, 20], [1, 30], [3, 40]] 0 2 (by decide) (by decide)

/-- C10: with a non-positive cap and a non-empty input, the cap test fires
only after the first row has been appended, so `dedupe_rows` returns
exactly the first input row rather than an empty list. -/
theorem dedupe_rows_nonpositive_cap_keeps_one {α : Type} [DecidableEq α]
    (row : List α) (rest : List (List α)) (key_index : ℕ) (keep_n : ℤ)
    (hk : key_index < row.length) (hn : keep_n ≤ 0) :
    dedupe_rows (row :: rest) key_index keep_n = some [row] := by
  have hkey : row[key_index]? = some row[key_index] :=
    List.getElem?_eq_getElem hk
  simp only [dedupe_rows, dedupeGo, hkey, List.not_mem_nil, if_false,
    List.nil_append]
  rw [if_pos (by simp; omega)]

/-- Witness for C10 at a concrete input: cap `-1`, three one-field rows. -/
theorem dedupe_rows_nonpositive_cap_keeps_one_witness :
    dedupe_rows [[(5 : ℕ)], [6], [7]] 0 (-1) = some [[5]] :=
  dedupe_rows_nonpositive_cap_keeps_one [(5 : ℕ)] [[6], [7]] 0 (-1)
    (by decide) (by decide)

/-- C2: if the first three fetch attempts raise the rate-limited signal and
the fourth succeeds, the run sleeps exactly 10s, 20s and 40s
(`wait = 10 * 2 ^ attempt` for attempts 0, 1, 2), returns the
`(rising, top)` pair on the fourth attempt, and makes exactly four fetch
calls — none beyond the successful one. -/
theorem fetch_google_trends_success_on_fourth {α : Type}
    (oracle : ℕ → TrendsOutcome α) (rising top : List α)
    (h0 : oracle 0 = .rateLimited) (h1 : oracle 1 = .rateLimited)
    (h2 : oracle 2 = .rateLimited) (h3 : oracle 3 = .ok rising top) :
    fetch_google_trends oracle =
      ⟨.ok (rising, top), [10, 20, 40], 4⟩ := by
  unfold fetch_google_trends
  rw [trendsLoop]
  norm_num [h0]
  rw [trendsLoop]
  norm_num [h1]
  rw [trendsLoop]
  norm_num [h2]
  rw [trendsLoop]
  norm_num [h3]

/-- Witness for C2 at a concrete oracle: rate-limited below attempt 3,
success at attempt 3. -/
theorem fetch_google_trends_success_on_fourth_witness :
    fetch_google_trends
        (fun n => if n < 3 then .rateLimited else .ok [(1 : ℕ)] [2]) =
      ⟨.ok ([1], [2]), [10, 20, 40], 4⟩ :=
  fetch_google_trends_success_on_fourth _ [1] [2] rfl rfl rfl rfl

/-- C3: five consecutive rate-limited attempts make the trends fetch fail
permanently: it performs the five backoff sleeps, makes exactly five fetch
calls (none beyond the fifth), and raises a `RuntimeError` — a terminal
error distinguishable from any normal `(rising, top)` result, in particular
from the empty one. -/
theorem fetch_google_trends_five_rate_limits {α : Type}
    (oracle : ℕ → TrendsOutcome α)
    (h : ∀ i, i < 5 → oracle i = .rateLimited) :
    fetch_google_trends oracle =
      ⟨.error "Google Trends fetch failed after multiple attempts.",
        [10, 20, 40, 80, 160], 5⟩ ∧
      (fetch_google_trends oracle).result ≠ .ok ([], []) := by
  have hrun : fetch_google_trends oracle =
      ⟨.error "Google Trends fetch failed after multiple attempts.",
        [10, 20, 40, 80, 160], 5⟩ := by
    unfold fetch_google_trends
    rw [trendsLoop]
    norm_num [h 0 (by norm_num)]
    rw [trendsLoop]
    norm_num [h 1 (by norm_num)]
    rw [trendsLoop]
    norm_num [h 2 (by norm_num)]
    rw [trendsLoop]
    norm_num [h 3 (by norm_num)]
    rw [trendsLoop]
    norm_num [h 4 (by norm_num)]
    rw [trendsLoop]
    norm_num
  refine ⟨hrun, ?_⟩
  rw [hrun]
  intro hcontra
  exact Except.noConfusion hcontra

/-- Witness for C3 at a concrete oracle: always rate-limited. -/
theorem fetch_google_trends_five_rate_limits_witness :
    fetch_google_trends (fun _ => (TrendsOutcome.rateLimited : TrendsOutcome ℕ)) =
      ⟨.error "Google Trends fetch failed after multiple attempts.",
        [10, 20, 40, 80, 160], 5⟩ ∧
      (fetch_google_trends
        (fun _ => (TrendsOutcome.rateLimited : TrendsOutcome ℕ))).result ≠
        .ok ([], []) :=
  fetch_google_trends_five_rate_limits _ (fun _ _ => rfl)

/-- C4: the orchestrator substitutes the API-provided snippet for the
appended description exactly when the enrichment result starts with "HTTP"
(the HTTP-error sentinel) or with "Error" (the fetch-error sentinel); the
sentinels "Invalid URL" and "No Meta Description" never trigger the
fallback and are kept verbatim as the description. -/
theorem snippet_fallback_exact (lookup : String → Option String)
    (row : List String) (link : String) (meta : String)
    (hlink : row[1]? = some link) (hmeta : meta ≠ "") :
    enrich_row lookup row meta =
      some (row ++ [if startswith meta "HTTP" || startswith meta "Error"
        then (lookup link).getD "No Meta Description" else meta]) ∧
    enrich_row lookup row "Invalid URL" = some (row ++ ["Invalid URL"]) ∧
    enrich_row lookup row "No Meta Description" =
      some (row ++ ["No Meta Description"]) := by
  have hlen : 1 < row.length := by
    by_contra hcon
    rw [List.getElem?_eq_none (by omega)] at hlink
    exact Option.noConfusion hlink
  refine ⟨?_, ?_, ?_⟩
  · simp only [enrich_row, if_neg hmeta]
    by_cases hsw : (startswith meta "HTTP" || startswith meta "Error") = true
    · rw [if_pos hsw, List.getElem?_append, if_pos hlen, hlink]
      rw [List.dropLast_concat]
      rw [if_pos hsw]
    · rw [if_neg hsw, if_neg hsw]
  · simp only [enrich_row]
    rw [if_neg (by decide :
      ¬ ((startswith "Invalid URL" "HTTP" ||
          startswith "Invalid URL" "Error") = true))]
    rw [if_neg (by decide : ¬ ("Invalid URL" = ""))]
  · simp only [enrich_row]
    rw [if_neg (by decide :
      ¬ ((startswith "No Meta Description" "HTTP" ||
          startswith "No Meta Description" "Error") = true))]
    rw [if_neg (by decide : ¬ ("No Meta Description" = ""))]

/-- Witness for C4 at a concrete input: an HTTP-error sentinel is replaced
by the snippet, the "Invalid URL" sentinel is kept. -/
theorem snippet_fallback_exact_witness :
    enrich_row (fun _ => some "the snippet") ["T", "L", "S"] "HTTP 403" =
      some ["T", "L", "S", "the snippet"] ∧
    enrich_row (fun _ => some "the snippet") ["T", "L", "S"] "Invalid URL" =
      some ["T", "L", "S", "Invalid URL"] := by
  have h := snippet_fallback_exact (fun _ => some "the snippet")
    ["T", "L", "S"] "L" "HTTP 403" (by decide) (by decide)
  refine ⟨?_, h.2.1⟩
  rw [h.1, if_pos (by decide)]
  rfl

/-- C5 (code bug): `get_last_run_info` returns a pytz-aware timestamp
(`pytz.utc.localize`) while `run_all_cooldown` subtracts it from the naive
`dt.datetime.utcnow()` (streamlit_app.py, line 171), so for ANY stored
timestamp the gate raises `TypeError` before reaching the cooldown branch:
with a two-hour-old timestamp it crashes instead of returning the cached
summary with a positive remaining time, and with a four-hour-old timestamp
it crashes instead of running the pipeline — in both cases invoking
nothing and writing nothing.  Only the claim's no-prior-timestamp case
behaves as stated: it is treated as READY, the pipeline runs, and the
metadata is overwritten with the new timestamp and summary. -/
theorem run_all_cooldown_typeerror_on_stored_timestamp (now : ℚ)
    (cached fresh : String) :
    run_all_cooldown now ⟨some (now - 7200), cached⟩ (.ok ()) (.ok fresh) 3 =
      ⟨.error
        "TypeError: cannot subtract offset-naive and offset-aware datetimes",
        false, false, ⟨some (now - 7200), cached⟩, none⟩ ∧
    run_all_cooldown now ⟨some (now - 14400), cached⟩ (.ok ()) (.ok fresh) 3 =
      ⟨.error
        "TypeError: cannot subtract offset-naive and offset-aware datetimes",
        false, false, ⟨some (now - 14400), cached⟩, none⟩ ∧
    run_all_cooldown now ⟨none, cached⟩ (.ok ()) (.ok fresh) 3 =
      ⟨.ok fresh, true, true, ⟨some now, fresh⟩, none⟩ := by
  refine ⟨?_, ?_, ?_⟩
  · simp [run_all_cooldown, elapsedHours, pySubSeconds]
  · simp [run_all_cooldown, elapsedHours, pySubSeconds]
  · simp only [run_all_cooldown, elapsedHours]
    rw [if_neg (by norm_num)]

/-- C6: whenever the run's outcome is a propagated exception — a failing
retrieval/storage or summarisation stage, or the naive/aware `TypeError`
of the elapsed-time computation itself — the metadata row is left exactly
as it was: the cooldown timestamp and the cached summary are only written
after full success, so a failed run starts no new cooldown window. -/
theorem run_all_cooldown_failure_no_write (now : ℚ) (st : GateState)
    (retrieve : Except String Unit) (summarize : Except String String)
    (cooldown_hours : ℚ) (e : String)
    (h : (run_all_cooldown now st retrieve summarize cooldown_hours).outcome =
      .error e) :
    (run_all_cooldown now st retrieve summarize cooldown_hours).finalState =
      st := by
  cases helap : elapsedHours now st.lastRun with
  | error e' => simp [run_all_cooldown, helap]
  | ok v =>
    by_cases hcool : v < cooldown_hours
    · simp [run_all_cooldown, helap, hcool] at h
    · cases retrieve with
      | error e' => simp [run_all_cooldown, helap, hcool]
      | ok u =>
        cases summarize with
        | error e' => simp [run_all_cooldown, helap, hcool]
        | ok s' => simp [run_all_cooldown, helap, hcool] at h

/-- Witness for C6 at a concrete input: a failing retrieval stage on a
ready gate leaves the metadata unchanged. -/
theorem run_all_cooldown_failure_no_write_witness :
    (run_all_cooldown 0 ⟨none, "cached"⟩ (.error "boom") (.ok "fresh")
        3).finalState = ⟨none, "cached"⟩ :=
  run_all_cooldown_failure_no_write 0 ⟨none, "cached"⟩ _ _ 3 "boom"
    (by norm_num [run_all_cooldown, elapsedHours])

/-- C7 counterexample: `set_last_run_info` issues two remote cell updates,
not a single one, and after the first update (timestamp written, summary
not yet) the sheet holds a half-updated state — new timestamp with old
summary — that differs from both the old and the new metadata pair, so the
overwrite is not atomic. -/
theorem set_last_run_info_not_single_update :
    (set_last_run_info "t1" "s1").length ≠ 1 ∧
    statesDuring ⟨"t0", "s0"⟩ (set_last_run_info "t1" "s1") =
      [⟨"t1", "s0"⟩, ⟨"t1", "s1"⟩] ∧
    (⟨"t1", "s0"⟩ : MetadataRow) ≠ ⟨"t0", "s0"⟩ ∧
    (⟨"t1", "s0"⟩ : MetadataRow) ≠ ⟨"t1", "s1"⟩ :=
  ⟨by decide, rfl, by decide, by decide⟩

/-- C7 amended: after a successful run the metadata pair is overwritten by
two sequential single-cell updates — the timestamp cell first, then the
summary cell — so between the two remote calls an intermediate state with
the new timestamp and the old summary is observable; both fields hold the
new values only after the second update completes. -/
theorem set_last_run_info_two_sequential_updates (m : MetadataRow)
    (t s : String) :
    set_last_run_info t s = [.runTimeCell t, .summaryCell s] ∧
    statesDuring m (set_last_run_info t s) = [⟨t, m.summary⟩, ⟨t, s⟩] :=
  ⟨rfl, rfl⟩

/-- C8: the stored trend rows are the input mapped to `(query, value)`
pairs and truncated to the first `CAP_TRENDS = 20` entries; a missing
`query` or `value` field passes through as `none` uncoerced — no
placeholder substitution is applied to trend rows. -/
theorem trend_rows_truncate_uncoerced (data : List TrendRecord) :
    (trend_rows data).length = min data.length CAP_TRENDS ∧
    ∀ i : ℕ, (trend_rows data)[i]? =
      if i < CAP_TRENDS then (data[i]?).map fun q => [q.query, q.value]
      else none := by
  constructor
  · simp [trend_rows, Nat.min_comm]
  · intro i
    by_cases hi : i < CAP_TRENDS
    · rw [if_pos hi]
      rw [trend_rows, List.getElem?_take_of_lt hi, List.getElem?_map]
    · rw [if_neg hi]
      apply List.getElem?_eq_none
      calc (trend_rows data).length ≤ CAP_TRENDS := by
            simp [trend_rows]
        _ ≤ i := by omega

/-- Setting index `i` of a phase list swaps the running-count contribution
of the old element for that of the new one. -/
theorem countRunning_set :
    ∀ (l : List TaskPhase) (i : ℕ) (v : TaskPhase), i < l.length →
      countRunning (l.set i v) +
          (if l[i]? = some .running then 1 else 0) =
        countRunning l + (if v = .running then 1 else 0) := by
  intro l
  induction l with
  | nil =>
    intro i v h
    simp at h
  | cons p ps ih =>
    intro i v h
    cases i with
    | zero =>
      simp only [List.set_cons_zero, countRunning, List.getElem?_cons_zero,
        Option.some.injEq]
      by_cases hp : p = TaskPhase.running <;>
        by_cases hv : v = TaskPhase.running <;> simp [hp, hv] <;> omega
    | succ j =>
      simp only [List.set_cons_succ, countRunning, List.getElem?_cons_succ]
      have hrec := ih j v (by simpa using h)
      by_cases hj : ps[j]? = some TaskPhase.running <;>
        by_cases hv : v = TaskPhase.running <;>
          by_cases hp : p = TaskPhase.running <;>
            simp [hj, hv, hp] at hrec ⊢ <;> omega

/-- The fan-out invariant holds in the initial state. -/
theorem fanoutInv_init (desc : ℕ → String) (k limit : ℕ) :
    FanoutInv desc k limit (fanoutInit k limit) := by
  have hzero : countRunning (List.replicate k .pending) = 0 := by
    induction k with
    | zero => rfl
    | succ n ih => simpa [List.replicate_succ, countRunning] using ih
  refine ⟨by simp [fanoutInit], by simp [fanoutInit], ?_, ?_⟩
  · simp [fanoutInit, hzero]
  · intro i hi
    constructor
    · intro hdone
      simp [fanoutInit, hi] at hdone
    · intro _
      simp [fanoutInit, hi]

/-- The fan-out invariant is preserved by every event-loop step. -/
theorem fanoutInv_step (desc : ℕ → String) (k limit : ℕ)
    (s s' : FanoutState) (hstep : FanoutStep desc s s')
    (hinv : FanoutInv desc k limit s) : FanoutInv desc k limit s' := by
  obtain ⟨hphl, hresl, hperm, hidx⟩ := hinv
  cases hstep with
  | acquire i hp hfree =>
    have hi : i < s.phases.length := by
      rcases List.getElem?_eq_some.mp hp with ⟨h, _⟩
      exact h
    have hcnt := countRunning_set s.phases i .running hi
    rw [hp] at hcnt
    simp only [Option.some.injEq] at hcnt
    refine ⟨by simpa using hphl, hresl, ?_, ?_⟩
    · show s.permits - 1 + countRunning (s.phases.set i .running) = limit
      have hpr : TaskPhase.pending ≠ TaskPhase.running :=
        fun h => TaskPhase.noConfusion h
      rw [if_neg hpr] at hcnt
      simp at hcnt
      omega
    · intro j hj
      by_cases hij : i = j
      · subst hij
        rw [List.getElem?_set_self hi]
        constructor
        · intro hcontra
          simp at hcontra
        · intro _
          exact (hidx i hj).2 (by rw [hp]; simp)
      · rw [List.getElem?_set_ne hij]
        exact hidx j hj
  | finish i hp =>
    have hi : i < s.phases.length := by
      rcases List.getElem?_eq_some.mp hp with ⟨h, _⟩
      exact h
    have hir : i < s.results.length := by omega
    have hcnt := countRunning_set s.phases i .done hi
    rw [hp] at hcnt
    refine ⟨by simpa using hphl, by simpa using hresl, ?_, ?_⟩
    · show s.permits + 1 + countRunning (s.phases.set i .done) = limit
      have hrd : TaskPhase.done ≠ TaskPhase.running :=
        fun h => TaskPhase.noConfusion h
      rw [if_pos rfl, if_neg hrd] at hcnt
      omega
    · intro j hj
      by_cases hij : i = j
      · subst hij
        rw [List.getElem?_set_self hi, List.getElem?_set_self hir]
        exact ⟨fun _ => rfl, fun hcontra => absurd rfl hcontra⟩
      · rw [List.getElem?_set_ne hij, List.getElem?_set_ne hij]
        exact hidx j hj

/-- Every state reachable by the event loop satisfies the fan-out
invariant. -/
theorem fanoutInv_reachable (desc : ℕ → String) (k limit : ℕ)
    (s : FanoutState) (h : FanoutReachable desc k limit s) :
    FanoutInv desc k limit s := by
  induction h with
  | refl => exact fanoutInv_init desc k limit
  | tail hab hbc ih => exact fanoutInv_step desc k limit _ _ hbc ih

/-- C9: for any scheduling of the semaphore-bounded fan-out of
`fetch_meta_descriptions` on `k` urls with concurrency limit `limit < k`,
every reachable state has at most `limit` fetches in flight, the result
list always has length exactly `k`, and whenever all tasks have completed —
in whatever completion order the scheduler chose — result slot `i` holds
the description of input url `i` for every `i`. -/
theorem fetch_meta_descriptions_fanout_correct (desc : ℕ → String)
    (k limit : ℕ) (hL : limit < k) (s : FanoutState)
    (hreach : FanoutReachable desc k limit s) :
    countRunning s.phases ≤ limit ∧
    s.results.length = k ∧
    ((∀ i, i < k → s.phases[i]? = some .done) →
      s.results = (List.range k).map fun i => some (desc i)) := by
  obtain ⟨hphl, hresl, hperm, hidx⟩ := fanoutInv_reachable desc k limit s hreach
  refine ⟨by omega, hresl, ?_⟩
  intro hall
  apply List.ext_getElem?
  intro i
  by_cases hi : i < k
  · rw [(hidx i hi).1 (hall i hi), List.getElem?_map, List.getElem?_range hi]
    rfl
  · rw [List.getElem?_eq_none (by omega),
      List.getElem?_eq_none (by simp; omega)]

/-- Witness for C9 at a concrete schedule: two urls, concurrency limit 1,
scheduled strictly one after the other, both done. -/
theorem fetch_meta_descriptions_fanout_correct_witness :
    countRunning (FanoutState.mk 1 [.done, .done]
        [some "d0", some "d1"]).phases ≤ 1 ∧
    (FanoutState.mk 1 [.done, .done] [some "d0", some "d1"]).results.length =
      2 ∧
    ((∀ i, i < 2 → (FanoutState.mk 1 [.done, .done]
        [some "d0", some "d1"]).phases[i]? = some .done) →
      (FanoutState.mk 1 [.done, .done] [some "d0", some "d1"]).results =
        (List.range 2).map fun i => some ((fun n => if n = 0 then "d0"
          else "d1") i)) := by
  have h1 : FanoutStep (fun n => if n = 0 then "d0" else "d1")
      (fanoutInit 2 1) ⟨0, [.running, .pending], [none, none]⟩ :=
    FanoutStep.acquire (fanoutInit 2 1) 0 (by decide) (by decide)
  have h2 : FanoutStep (fun n => if n = 0 then "d0" else "d1")
      (⟨0, [.running, .pending], [none, none]⟩ : FanoutState)
      ⟨1, [.done, .pending], [some "d0", none]⟩ :=
    FanoutStep.finish ⟨0, [.running, .pending], [none, none]⟩ 0 (by decide)
  have h3 : FanoutStep (fun n => if n = 0 then "d0" else "d1")
      (⟨1, [.done, .pending], [some "d0", none]⟩ : FanoutState)
      ⟨0, [.done, .running], [some "d0", none]⟩ :=
    FanoutStep.acquire ⟨1, [.done, .pending], [some "d0", none]⟩ 1
      (by decide) (by decide)
  have h4 : FanoutStep (fun n => if n = 0 then "d0" else "d1")
      (⟨0, [.done, .running], [some "d0", none]⟩ : FanoutState)
      ⟨1, [.done, .done], [some "d0", some "d1"]⟩ :=
    FanoutStep.finish ⟨0, [.done, .running], [some "d0", none]⟩ 1 (by decide)
  have hreach : FanoutReachable (fun n => if n = 0 then "d0" else "d1") 2 1
      ⟨1, [.done, .done], [some "d0", some "d1"]⟩ :=
    Relation.ReflTransGen.tail (Relation.ReflTransGen.tail
      (Relation.ReflTransGen.tail (Relation.ReflTransGen.single h1) h2) h3) h4
  exact fetch_meta_descriptions_fanout_correct
    (fun n => if n = 0 then "d0" else "d1") 2 1 (by decide) _ hreach

end NewsEngine
